import Mathlib

/-!
Verification of the organogram ingestion-and-mapping layer.

This file embeds, in Lean, the data-mapping core of `organogram.py`:
the `proc_field` normalizer, `OrganisationDiagrammer.create_graph_from_yaml`
(building a directed graph from a parsed YAML document), the edge styling
resolver `draw_networkx_edges`, and the CLI source-file existence gate in
`main`.  YAML scalar values are modelled by `YVal` (null, string, int) with
Python truthiness; Python exceptions (`KeyError`, `AssertionError`,
`AttributeError`) are modelled by `Except PyErr`.  The NetworkX `DiGraph`
is modelled by insertion-ordered association lists with the update semantics
of `add_node` / `add_edge` (all attribute keys are always passed, so a
dictionary update amounts to full replacement of the modelled attributes).
-/

/-- A YAML scalar as it reaches the builder: Python `None`, `str`, or `int`. -/
inductive YVal where
  | vnull : YVal
  | vstr : String → YVal
  | vint : Int → YVal
deriving DecidableEq, Repr

/-- Python truthiness of a `YVal`: `None` and `""` and `0` are falsy. -/
def YVal.truthy : YVal → Bool
  | .vnull => false
  | .vstr s => !(s == "")
  | .vint n => !(n == 0)

/-- The underlying string of a string value, `""` otherwise. -/
def YVal.str : YVal → String
  | .vstr s => s
  | _ => ""

/-- True when the value is `None` or a string (so Python string methods
cannot raise an `AttributeError` on it after a truthiness check). -/
def YVal.isStrLike : YVal → Bool
  | .vint _ => false
  | _ => true

/-- The Python exceptions the embedded code can raise. -/
inductive PyErr where
  | keyError : String → PyErr
  | assertionError : PyErr
  | attributeError : PyErr
deriving DecidableEq, Repr

/-- Core of `"\n".join(val.split(" ", 1))`: replace the first `' '` by `'\n'`. -/
def pySplitJoinAux : List Char → List Char
  | [] => []
  | c :: cs => if c = ' ' then '\n' :: cs else c :: pySplitJoinAux cs

/-- Embedding of `"\n".join(val.split(" ", 1))` (split on the first space
only, then rejoin with a newline). -/
def pyNewline (s : String) : String :=
  ⟨pySplitJoinAux s.data⟩

/-- Embedding of Python `str.upper()` restricted to ASCII input. -/
def pyUpper (s : String) : String :=
  ⟨s.data.map Char.toUpper⟩

/-- Embedding of `proc_field` (organogram.py lines 157-167).  A truthy string
is optionally split on its first space and optionally upper-cased; falsy
input yields `""`.  A truthy non-string raises `AttributeError` as soon as a
string method is applied to it (`val.split` / `val.upper`). -/
def proc_field (val : YVal) (newline : Bool) (upper : Bool) : Except PyErr YVal :=
  if val.truthy then
    match val with
    | .vstr s =>
      let s1 := if newline then pyNewline s else s
      let s2 := if upper then pyUpper s1 else s1
      .ok (.vstr s2)
    | v => if newline || upper then .error .attributeError else .ok v
  else
    .ok (.vstr "")

/-- A YAML mapping record (node or edge record): key/value pairs. -/
def Record : Type := List (String × YVal)

instance : DecidableEq Record := by
  unfold Record
  infer_instance

/-- Embedding of Python `record.get(key)`: the first binding of `key`, or
`None` when absent. -/
def getField (r : Record) (k : String) : YVal :=
  match r.find? (fun p => p.fst == k) with
  | some p => p.snd
  | none => .vnull

/-- The builder state: the three configurable valid-value lists, with the
module-level defaults `VALID_TEAM`, `VALID_STATUS`, `VALID_RELATION`. -/
structure Diagrammer where
  validTeams : List YVal
  validStatus : List YVal
  validRelations : List YVal
deriving DecidableEq, Repr

/-- The default `OrganisationDiagrammer()` configuration. -/
def defaultDiagrammer : Diagrammer :=
  { validTeams := [.vstr "A", .vstr "B", .vstr "C", .vstr "D", .vstr "E", .vstr "F"]
    validStatus := [.vstr "perm", .vstr "contractor", .vstr "starting",
                    .vstr "leaving", .vstr "moving", .vstr "new"]
    validRelations := [.vint 1, .vint 2, .vint 3, .vint 4] }

/-- Node attributes as passed to `g.add_node` (all six keys always passed). -/
structure NodeAttrs where
  rank : YVal
  jobtitle : YVal
  status : YVal
  manager : YVal
  note : YVal
  team : YVal
deriving DecidableEq, Repr

/-- Attributes of a node auto-created by `add_edge`: the empty dictionary,
every `get` on it returns `None`. -/
def emptyNodeAttrs : NodeAttrs :=
  ⟨.vnull, .vnull, .vnull, .vnull, .vnull, .vnull⟩

/-- Edge attributes as passed to `g.add_edge` (both keys always passed). -/
structure EdgeAttrs where
  label : YVal
  relationship : YVal
deriving DecidableEq, Repr

/-- The NetworkX `DiGraph`, modelled as insertion-ordered association lists:
nodes keyed by name, edges keyed by the (source, target) pair. -/
structure Graph where
  nodes : List (YVal × NodeAttrs)
  edges : List (YVal × YVal × EdgeAttrs)
deriving DecidableEq, Repr

/-- `nx.DiGraph()`. -/
def Graph.empty : Graph := ⟨[], []⟩

/-- Insert or replace a node binding, keeping insertion order
(NetworkX `add_node` with every modelled attribute key passed). -/
def setNode : List (YVal × NodeAttrs) → YVal → NodeAttrs → List (YVal × NodeAttrs)
  | [], k, a => [(k, a)]
  | (k', a') :: rest, k, a =>
    if k' = k then (k, a) :: rest else (k', a') :: setNode rest k a

/-- Add a node with an empty attribute dictionary when absent
(`add_edge` auto-creating an endpoint). -/
def ensureNode (ns : List (YVal × NodeAttrs)) (k : YVal) : List (YVal × NodeAttrs) :=
  if ns.any (fun p => p.fst == k) then ns else ns ++ [(k, emptyNodeAttrs)]

/-- Insert or replace an edge binding, keyed by the (source, target) pair
(NetworkX `add_edge` with both modelled attribute keys passed). -/
def setEdge : List (YVal × YVal × EdgeAttrs) → YVal → YVal → EdgeAttrs →
    List (YVal × YVal × EdgeAttrs)
  | [], u, v, a => [(u, v, a)]
  | (u', v', a') :: rest, u, v, a =>
    if u' = u ∧ v' = v then (u, v, a) :: rest else (u', v', a') :: setEdge rest u v a

/-- `g.add_node(name, rank=..., jobtitle=..., status=..., manager=...,
note=..., team=...)`. -/
def Graph.add_node (g : Graph) (k : YVal) (a : NodeAttrs) : Graph :=
  ⟨setNode g.nodes k a, g.edges⟩

/-- `g.add_edge(source, target, label=..., relationship=...)`: both endpoints
are auto-created as attribute-less nodes when absent, then the edge is set. -/
def Graph.add_edge (g : Graph) (u v : YVal) (a : EdgeAttrs) : Graph :=
  ⟨ensureNode (ensureNode g.nodes u) v, setEdge g.edges u v a⟩

/-- The `if validate: assert team in self._validTeams` check of
organogram.py lines 348-349 (a no-op when validation is off). -/
def checkTeam (d : Diagrammer) (validate : Bool) (team0 : YVal) :
    Except PyErr Unit :=
  if validate then
    if team0 ∈ d.validTeams then pure () else throw PyErr.assertionError
  else
    pure ()

/-- The `if validate and status: assert status in self._validStatus` check
of organogram.py lines 352-353 (a no-op when validation is off or the
status is falsy). -/
def checkStatus (d : Diagrammer) (validate : Bool) (status : YVal) :
    Except PyErr Unit :=
  if validate && status.truthy then
    if status ∈ d.validStatus then pure () else throw PyErr.assertionError
  else
    pure ()

/-- One iteration of the node loop of `create_graph_from_yaml`
(organogram.py lines 340-363). -/
def procNode (d : Diagrammer) (newline validate : Bool) (g : Graph)
    (node : Record) : Except PyErr Graph := do
  let name ← proc_field (getField node "id") newline false
  let note ← proc_field (getField node "note") false false
  let team0 ← proc_field (getField node "team") false false
  let job ← proc_field (getField node "label") newline false
  let rank ← proc_field (getField node "rank") false false
  let manager ← proc_field (getField node "manager") false false
  let team ←
    if team0.truthy then do
      let _ ← checkTeam d validate team0
      proc_field team0 newline true
    else
      pure team0
  let status := getField node "status"
  let _ ← checkStatus d validate status
  if name.truthy then
    pure (g.add_node name ⟨rank, job, status, manager, note, team⟩)
  else
    pure g

/-- The `if validate: assert relation in self._validRelations` check of
organogram.py lines 369-370 (a no-op when validation is off); it is
performed on every edge record, before the empty-source skip. -/
def checkRelation (d : Diagrammer) (validate : Bool) (relation : YVal) :
    Except PyErr Unit :=
  if validate then
    if relation ∈ d.validRelations then pure () else throw PyErr.assertionError
  else
    pure ()

/-- One iteration of the edge loop of `create_graph_from_yaml`
(organogram.py lines 364-372).  Note the `relationship` validation runs
before the empty-source skip. -/
def procEdge (d : Diagrammer) (newline validate : Bool) (g : Graph)
    (edge : Record) : Except PyErr Graph := do
  let source ← proc_field (getField edge "source") newline false
  let target ← proc_field (getField edge "target") newline false
  let label ← proc_field (getField edge "label") false false
  let relation ← proc_field (getField edge "relationship") false false
  let _ ← checkRelation d validate relation
  if source.truthy then
    pure (g.add_edge source target ⟨label, relation⟩)
  else
    pure g

/-- The parsed YAML document: a mapping in which the `nodes` and `edges`
keys may each be absent (`yaml_data["nodes"]` raises `KeyError` then). -/
structure Doc where
  nodes : Option (List Record)
  edges : Option (List Record)

/-- Embedding of `OrganisationDiagrammer.create_graph_from_yaml`
(organogram.py lines 314-373). -/
def create_graph_from_yaml (d : Diagrammer) (yaml_data : Doc)
    (newline validate : Bool) : Except PyErr Graph := do
  let g : Graph := Graph.empty
  let nrecs ←
    match yaml_data.nodes with
    | some recs => pure recs
    | none => throw (PyErr.keyError "nodes")
  let g ← nrecs.foldlM (procNode d newline validate) g
  let erecs ←
    match yaml_data.edges with
    | some recs => pure recs
    | none => throw (PyErr.keyError "edges")
  let g ← erecs.foldlM (procEdge d newline validate) g
  pure g

/-- Line style constants used by the edge drawing calls. -/
inductive LineStyle where
  | solid : LineStyle
  | dotted : LineStyle
deriving DecidableEq, Repr

/-- One `nx.draw_networkx_edges` invocation: the edge list drawn together
with the visual constants passed for it. -/
structure EdgeDraw where
  edgelist : List (YVal × YVal)
  width : Nat
  alpha : ℚ
  color : String
  style : LineStyle
deriving DecidableEq, Repr

/-- The edges of `g` whose `relationship` attribute equals the integer `r`
(the `d.get("relationship") == r` comprehensions of organogram.py
lines 474-485). -/
def relEdges (g : Graph) (r : Int) : List (YVal × YVal) :=
  (g.edges.filter (fun e => e.2.2.relationship == YVal.vint r)).map
    (fun e => (e.1, e.2.1))

/-- Embedding of `OrganisationDiagrammer.draw_networkx_edges`
(organogram.py lines 455-503) as a pure styling resolver: the four edge
drawing calls in order, each with width 4 and alpha 0.8. -/
def draw_networkx_edges (g : Graph) : List EdgeDraw :=
  [ ⟨relEdges g 1, 4, 8/10, "g", .solid⟩,
    ⟨relEdges g 2, 4, 8/10, "g", .dotted⟩,
    ⟨relEdges g 3, 4, 8/10, "teal", .dotted⟩,
    ⟨relEdges g 4, 4, 8/10, "orange", .dotted⟩ ]

/-- Outcome of the `--source` handling in `main`: what was printed and
whether the process terminated (with which exit status) before any
further work. -/
structure SourceCheck where
  printed : List String
  exitCode : Option Nat
deriving DecidableEq, Repr

/-- Embedding of the source-file gate in `main` (organogram.py lines
771-778): when the file does not exist, the `assert os.path.exists(source)`
raises, the handler prints an error and calls `sys.exit()`.  `sys.exit()`
with no argument raises `SystemExit(None)`, which terminates the process
with exit status 0. -/
def mainSourceGate (source : String) (sourceExists : Bool) : SourceCheck :=
  if sourceExists then
    ⟨[], none⟩
  else
    ⟨["ERROR: Could not find \"" ++ source ++ "\". Exiting..."], some 0⟩

/-! ### Pure characterization layer

For documents whose flagged fields are strings (or absent), the `Except`
computation above never raises, and is characterized by the pure functions
below.  These are proof devices; the theorems are stated against
`create_graph_from_yaml` itself. -/

/-- `proc_field` with both flags off, as a pure function: truthy values pass
through unchanged, falsy values become `""`. -/
def procAny (v : YVal) : YVal :=
  if v.truthy then v else .vstr ""

/-- `proc_field` on a string argument, as a pure function. -/
def procStr (s : String) (newline upper : Bool) : String :=
  if s == "" then ""
  else
    let s1 := if newline then pyNewline s else s
    if upper then pyUpper s1 else s1

/-- The graph key a node record normalizes to. -/
def nodeKeyOf (node : Record) (newline : Bool) : YVal :=
  .vstr (procStr (getField node "id").str newline false)

/-- The attributes stored for a node record (validation off). -/
def nodeAttrsOf (node : Record) (newline : Bool) : NodeAttrs :=
  let team0 := procAny (getField node "team")
  { rank := procAny (getField node "rank")
    jobtitle := .vstr (procStr (getField node "label").str newline false)
    status := getField node "status"
    manager := procAny (getField node "manager")
    note := procAny (getField node "note")
    team := if team0.truthy then .vstr (procStr team0.str newline true) else team0 }

/-- The normalized source of an edge record. -/
def edgeSrcOf (edge : Record) (newline : Bool) : String :=
  procStr (getField edge "source").str newline false

/-- The normalized target of an edge record. -/
def edgeTgtOf (edge : Record) (newline : Bool) : String :=
  procStr (getField edge "target").str newline false

/-- The attributes stored for an edge record. -/
def edgeAttrsOf (edge : Record) : EdgeAttrs :=
  ⟨procAny (getField edge "label"), procAny (getField edge "relationship")⟩

/-- The pure effect of one node-loop iteration (validation off, flagged
fields string-like). -/
def nodeStep (newline : Bool) (g : Graph) (node : Record) : Graph :=
  if (nodeKeyOf node newline).truthy then
    g.add_node (nodeKeyOf node newline) (nodeAttrsOf node newline)
  else
    g

/-- The pure effect of one edge-loop iteration (validation off, flagged
fields string-like). -/
def edgeStep (newline : Bool) (g : Graph) (edge : Record) : Graph :=
  if edgeSrcOf edge newline == "" then
    g
  else
    g.add_edge (.vstr (edgeSrcOf edge newline)) (.vstr (edgeTgtOf edge newline))
      (edgeAttrsOf edge)

/-- Well-typedness of a node record: the fields that get string methods
applied under flags are strings or absent. -/
def NodeRecOk (node : Record) : Prop :=
  (getField node "id").isStrLike = true ∧
  (getField node "label").isStrLike = true ∧
  (getField node "team").isStrLike = true

instance (node : Record) : Decidable (NodeRecOk node) := by
  unfold NodeRecOk
  infer_instance

/-- Well-typedness of an edge record: `source` and `target` are strings or
absent. -/
def EdgeRecOk (edge : Record) : Prop :=
  (getField edge "source").isStrLike = true ∧
  (getField edge "target").isStrLike = true

instance (edge : Record) : Decidable (EdgeRecOk edge) := by
  unfold EdgeRecOk
  infer_instance

/-- The node names of a graph, in insertion order. -/
def Graph.nodeNames (g : Graph) : List YVal :=
  g.nodes.map Prod.fst

/-- Look up the attribute dictionary of a node. -/
def lookupNode (g : Graph) (k : YVal) : Option NodeAttrs :=
  (g.nodes.find? (fun p => p.fst == k)).map Prod.snd

/-- Endpoint closure: both endpoints of every edge are nodes of the graph. -/
def endpointsOk (g : Graph) : Prop :=
  ∀ e ∈ g.edges, e.1 ∈ g.nodeNames ∧ e.2.1 ∈ g.nodeNames

/-- The pair `(u, v)` is drawn by the `i`-th drawing call with the given
visual constants. -/
def drawnAs (g : Graph) (i : Nat) (u v : YVal) (w : Nat) (al : ℚ)
    (c : String) (st : LineStyle) : Prop :=
  ∃ dr, (draw_networkx_edges g)[i]? = some dr ∧ (u, v) ∈ dr.edgelist ∧
    dr.width = w ∧ dr.alpha = al ∧ dr.color = c ∧ dr.style = st

/-! ### Lemmas: reduction of the monadic builder to the pure layer -/

theorem exceptBind_ok {α β : Type} (a : α) (f : α → Except PyErr β) :
    (Except.ok a >>= f) = f a := rfl

theorem exceptBind_err {α β : Type} (e : PyErr) (f : α → Except PyErr β) :
    ((Except.error e : Except PyErr α) >>= f) = .error e := rfl

theorem exceptPure {α : Type} (a : α) : (pure a : Except PyErr α) = .ok a := rfl

theorem proc_field_noflags (v : YVal) :
    proc_field v false false = .ok (procAny v) := by
  cases v with
  | vnull => rfl
  | vstr s =>
    by_cases hs : s = ""
    · subst hs; rfl
    · simp [proc_field, procAny, YVal.truthy, hs]
  | vint n =>
    by_cases hn : n = 0
    · subst hn; rfl
    · simp [proc_field, procAny, YVal.truthy, hn]

theorem proc_field_strlike (v : YVal) (hv : v.isStrLike = true) (n u : Bool) :
    proc_field v n u = .ok (.vstr (procStr v.str n u)) := by
  cases v with
  | vnull => simp [proc_field, procStr, YVal.str, YVal.truthy]
  | vstr s =>
    by_cases hs : s = ""
    · subst hs; simp [proc_field, procStr, YVal.truthy, YVal.str]
    · simp [proc_field, procStr, YVal.truthy, YVal.str, hs]
  | vint m => simp [YVal.isStrLike] at hv

theorem procAny_strlike (v : YVal) (hv : v.isStrLike = true) :
    (procAny v).isStrLike = true := by
  unfold procAny
  split
  · exact hv
  · rfl

theorem checkTeam_false (d : Diagrammer) (t : YVal) :
    checkTeam d false t = .ok () := rfl

theorem checkStatus_false (d : Diagrammer) (s : YVal) :
    checkStatus d false s = .ok () := rfl

theorem checkRelation_false (d : Diagrammer) (r : YVal) :
    checkRelation d false r = .ok () := rfl

theorem checkTeam_true_notmem (d : Diagrammer) (t : YVal)
    (h : t ∉ d.validTeams) :
    checkTeam d true t = .error .assertionError := by
  unfold checkTeam
  rw [if_neg h]
  rfl

theorem checkRelation_true_notmem (d : Diagrammer) (r : YVal)
    (h : r ∉ d.validRelations) :
    checkRelation d true r = .error .assertionError := by
  unfold checkRelation
  rw [if_neg h]
  rfl

theorem checkTeam_true_mem (d : Diagrammer) (t : YVal)
    (h : t ∈ d.validTeams) : checkTeam d true t = .ok () := by
  unfold checkTeam
  rw [if_pos h]
  rfl

theorem checkStatus_shape (d : Diagrammer) (v : Bool) (s : YVal) :
    checkStatus d v s = .ok () ∨
    checkStatus d v s = .error .assertionError := by
  unfold checkStatus
  split
  · split
    · exact Or.inl rfl
    · exact Or.inr rfl
  · exact Or.inl rfl

theorem procNode_ok (d : Diagrammer) (nl : Bool) (g : Graph) (node : Record)
    (h : NodeRecOk node) :
    procNode d nl false g node = .ok (nodeStep nl g node) := by
  obtain ⟨h1, h2, h3⟩ := h
  unfold procNode nodeStep nodeKeyOf nodeAttrsOf
  rw [proc_field_strlike _ h1, proc_field_strlike _ h2]
  simp only [proc_field_noflags, exceptBind_ok, checkTeam_false,
    checkStatus_false]
  by_cases ht : (procAny (getField node "team")).truthy
  · rw [if_pos ht]
    simp only [checkTeam_false, exceptPure, exceptBind_ok,
      proc_field_strlike _ (procAny_strlike _ h3)]
    by_cases hn : (YVal.vstr (procStr (getField node "id").str nl false)).truthy
    · simp [hn, ht, Graph.add_node, exceptPure, exceptBind_ok]
    · simp [hn, ht, exceptPure, exceptBind_ok]
  · rw [if_neg ht]
    by_cases hn : (YVal.vstr (procStr (getField node "id").str nl false)).truthy
    · simp [hn, ht, Graph.add_node, exceptPure, exceptBind_ok]
    · simp [hn, ht, exceptPure, exceptBind_ok]

theorem procEdge_ok (d : Diagrammer) (nl : Bool) (g : Graph) (edge : Record)
    (h : EdgeRecOk edge) :
    procEdge d nl false g edge = .ok (edgeStep nl g edge) := by
  obtain ⟨h1, h2⟩ := h
  unfold procEdge edgeStep edgeSrcOf edgeTgtOf edgeAttrsOf
  rw [proc_field_strlike _ h1, proc_field_strlike _ h2]
  simp only [proc_field_noflags, exceptBind_ok, checkRelation_false,
    exceptPure]
  by_cases hs : procStr (getField edge "source").str nl false = ""
  · simp [hs, YVal.truthy, exceptPure, exceptBind_ok]
  · simp [hs, YVal.truthy, Graph.add_edge, exceptPure, exceptBind_ok]

theorem foldlM_nodes_ok (d : Diagrammer) (nl : Bool) (l : List Record) :
    ∀ g : Graph, (∀ r ∈ l, NodeRecOk r) →
    l.foldlM (procNode d nl false) g = .ok (l.foldl (nodeStep nl) g) := by
  induction l with
  | nil => intro g _; rfl
  | cons r rest ih =>
    intro g h
    have hr : NodeRecOk r := h r (by simp)
    simp only [List.foldlM, List.foldl, procNode_ok d nl g r hr, exceptBind_ok]
    exact ih _ (fun r' hr' => h r' (by simp [hr']))

theorem foldlM_edges_ok (d : Diagrammer) (nl : Bool) (l : List Record) :
    ∀ g : Graph, (∀ e ∈ l, EdgeRecOk e) →
    l.foldlM (procEdge d nl false) g = .ok (l.foldl (edgeStep nl) g) := by
  induction l with
  | nil => intro g _; rfl
  | cons e rest ih =>
    intro g h
    have he : EdgeRecOk e := h e (by simp)
    simp only [List.foldlM, List.foldl, procEdge_ok d nl g e he, exceptBind_ok]
    exact ih _ (fun e' he' => h e' (by simp [he']))

theorem create_ok (d : Diagrammer) (nl : Bool) (ns es : List Record)
    (hn : ∀ r ∈ ns, NodeRecOk r) (he : ∀ e ∈ es, EdgeRecOk e) :
    create_graph_from_yaml d ⟨some ns, some es⟩ nl false =
      .ok (es.foldl (edgeStep nl) (ns.foldl (nodeStep nl) Graph.empty)) := by
  unfold create_graph_from_yaml
  simp only [exceptPure, exceptBind_ok, foldlM_nodes_ok d nl ns Graph.empty hn,
    foldlM_edges_ok d nl es (List.foldl (nodeStep nl) Graph.empty ns) he]

/-! ### Claim C2 -/

/-- C2 (counterexample): a document missing the `nodes` key is not treated
as valid by the build operation — `yaml_data["nodes"]` raises `KeyError`
instead of yielding an empty graph, refuting the claim at the concrete
document with no `nodes` key and an empty `edges` list. -/
theorem C2_counterexample :
    create_graph_from_yaml defaultDiagrammer ⟨none, some []⟩ true false =
      .error (.keyError "nodes") := rfl

/-- C2 (amended): a document whose `nodes` and `edges` keys are bound to
empty lists is valid for any configuration and flags and yields the empty
graph; a document missing the `nodes` (resp. `edges`) key raises
`KeyError "nodes"` (resp. `KeyError "edges"`). -/
theorem C2_amended_empty_doc :
    ∀ (d : Diagrammer) (newline validate : Bool),
      create_graph_from_yaml d ⟨some [], some []⟩ newline validate =
        .ok Graph.empty ∧
      create_graph_from_yaml d ⟨none, some []⟩ newline validate =
        .error (.keyError "nodes") ∧
      create_graph_from_yaml d ⟨some [], none⟩ newline validate =
        .error (.keyError "edges") :=
  fun _ _ _ => ⟨rfl, rfl, rfl⟩

/-! ### Claim C4 -/

/-- C4: `proc_field` returns `""` for empty-string or `None` input under
every combination of the `newline` and `upper` flags;
`proc_field("Head of Engineering", newline=True)` returns
`"Head\nof Engineering"` (the newline replaces the first space only); and
`proc_field("ops", newline=False, upper=True)` returns `"OPS"`. -/
theorem C4_proc_field_values :
    (∀ n u : Bool,
      proc_field .vnull n u = .ok (.vstr "") ∧
      proc_field (.vstr "") n u = .ok (.vstr "")) ∧
    proc_field (.vstr "Head of Engineering") true false =
      .ok (.vstr "Head\nof Engineering") ∧
    proc_field (.vstr "ops") false true = .ok (.vstr "OPS") := by
  refine ⟨fun n u => ?_, rfl, rfl⟩
  cases n <;> cases u <;> exact ⟨rfl, rfl⟩

/-! ### Claim C6 -/

/-- C6 (counterexample): when the source file does not exist, the program
prints the error message but terminates with exit status 0 — `sys.exit()`
is called with no argument — so the exit status is not non-zero, refuting
the claim at source path `"test.yaml"`. -/
theorem C6_counterexample :
    (mainSourceGate "test.yaml" false).exitCode = some 0 ∧
    (mainSourceGate "test.yaml" false).printed =
      ["ERROR: Could not find \"test.yaml\". Exiting..."] ∧
    ∀ c : Nat, (mainSourceGate "test.yaml" false).exitCode = some c → c = 0 := by
  refine ⟨rfl, rfl, ?_⟩
  intro c h
  simp [mainSourceGate] at h
  omega

/-- C6 (amended): when the command-line source file path does not exist,
the program prints an error message and terminates immediately without
attempting any further work, but the exit status is 0 (not non-zero),
because `sys.exit()` is called with no argument; when the file exists,
nothing is printed and execution proceeds. -/
theorem C6_amended_exit :
    ∀ src : String,
      (mainSourceGate src false).exitCode = some 0 ∧
      (mainSourceGate src false).printed =
        ["ERROR: Could not find \"" ++ src ++ "\". Exiting..."] ∧
      mainSourceGate src true = ⟨[], none⟩ :=
  fun _ => ⟨rfl, rfl, rfl⟩

/-! ### Claim C5 -/

theorem charToUpper_idem (c : Char) : c.toUpper.toUpper = c.toUpper := by
  simp only [Char.toUpper]
  by_cases h : c.toNat ≥ 97 ∧ c.toNat ≤ 122
  · rw [if_pos h]
    have hv : (c.toNat - 32).isValidChar := Or.inl (by omega)
    have ht : (Char.ofNat (c.toNat - 32)).toNat = c.toNat - 32 := by
      rw [Char.ofNat, dif_pos hv]
      rfl
    rw [ht, if_neg (by omega)]
  · rw [if_neg h, if_neg h]

theorem pyUpper_idem (s : String) : pyUpper (pyUpper s) = pyUpper s := by
  unfold pyUpper
  apply congrArg String.mk
  rw [List.map_map]
  apply List.map_congr_left
  intro c _
  exact charToUpper_idem c

theorem pyUpper_ne_empty (s : String) (hs : s ≠ "") : pyUpper s ≠ "" := by
  intro h
  apply hs
  cases s with
  | mk l =>
    have hm : l.map Char.toUpper = [] := congrArg String.data h
    have hl : l = [] := by simpa using hm
    simp [hl]

/-- C5: applying `proc_field` with `upper=True` twice equals applying it
once for every string input, but applying it with `newline=True` twice
differs from applying it once on the input `"a b c"`: the first
application yields `"a\nb c"`, the second re-splits it to `"a\nb\nc"`. -/
theorem C5_idempotence :
    (∀ s : String,
      ((proc_field (.vstr s) false true) >>= fun v => proc_field v false true) =
        proc_field (.vstr s) false true) ∧
    ((proc_field (.vstr "a b c") true false) >>= fun v => proc_field v true false) =
      .ok (.vstr "a\nb\nc") ∧
    proc_field (.vstr "a b c") true false = .ok (.vstr "a\nb c") ∧
    ((proc_field (.vstr "a b c") true false) >>= fun v => proc_field v true false) ≠
      proc_field (.vstr "a b c") true false := by
  refine ⟨?_, rfl, rfl, ?_⟩
  · intro s
    by_cases hs : s = ""
    · subst hs; rfl
    · have h1 : proc_field (.vstr s) false true = .ok (.vstr (pyUpper s)) := by
        simp [proc_field, YVal.truthy, hs]
      rw [h1, exceptBind_ok]
      simp [proc_field, YVal.truthy, pyUpper_ne_empty s hs, pyUpper_idem]
  · intro h
    have h2 : (Except.ok (YVal.vstr "a\nb\nc") : Except PyErr YVal) =
        .ok (.vstr "a\nb c") := h
    exact absurd (Except.ok.inj h2) (by decide)

/-! ### Claim C7 -/

/-- C7: the edge styling resolver partitions edges purely by their
`relationship` attribute: an edge with relationship 1 is drawn by the
solid-green call, 2 by the dotted-green call, 3 by the dotted-teal call,
4 by the dotted-orange call, and every drawing call uses width 4 and
alpha 0.8 regardless of relationship. -/
theorem C7_edge_styling (g : Graph) (u v : YVal) (a : EdgeAttrs)
    (h : (u, v, a) ∈ g.edges) :
    (a.relationship = .vint 1 → drawnAs g 0 u v 4 (8/10) "g" .solid) ∧
    (a.relationship = .vint 2 → drawnAs g 1 u v 4 (8/10) "g" .dotted) ∧
    (a.relationship = .vint 3 → drawnAs g 2 u v 4 (8/10) "teal" .dotted) ∧
    (a.relationship = .vint 4 → drawnAs g 3 u v 4 (8/10) "orange" .dotted) ∧
    (∀ dr ∈ draw_networkx_edges g, dr.width = 4 ∧ dr.alpha = 8/10) := by
  have hmem : ∀ r : Int, a.relationship = .vint r → (u, v) ∈ relEdges g r := by
    intro r hr
    unfold relEdges
    exact List.mem_map.mpr ⟨(u, v, a), List.mem_filter.mpr ⟨h, by simp [hr]⟩, rfl⟩
  refine ⟨fun hr => ?_, fun hr => ?_, fun hr => ?_, fun hr => ?_, fun dr hdr => ?_⟩
  · exact ⟨_, rfl, hmem 1 hr, rfl, rfl, rfl, rfl⟩
  · exact ⟨_, rfl, hmem 2 hr, rfl, rfl, rfl, rfl⟩
  · exact ⟨_, rfl, hmem 3 hr, rfl, rfl, rfl, rfl⟩
  · exact ⟨_, rfl, hmem 4 hr, rfl, rfl, rfl, rfl⟩
  · simp only [draw_networkx_edges, List.mem_cons, List.not_mem_nil, or_false] at hdr
    rcases hdr with h' | h' | h' | h' <;> subst h' <;> exact ⟨rfl, rfl⟩

/-- Concrete graph used to instantiate `C7_edge_styling`. -/
def C7graph : Graph :=
  ⟨[], [(.vstr "A", .vstr "B", ⟨.vstr "", .vint 1⟩)]⟩

/-- C7 witness: a graph with one relationship-1 edge is drawn by the
solid-green call. -/
theorem C7_edge_styling_witness :
    ((YVal.vstr "A", YVal.vstr "B", (⟨.vstr "", .vint 1⟩ : EdgeAttrs)) ∈
      C7graph.edges) ∧
    drawnAs C7graph 0 (.vstr "A") (.vstr "B") 4 (8/10) "g" .solid :=
  ⟨by decide,
   (C7_edge_styling C7graph (.vstr "A") (.vstr "B") ⟨.vstr "", .vint 1⟩
      (by decide)).1 rfl⟩

/-! ### Claim C9 -/

/-- C9: under `validate=True` the relationship check runs before the
empty-source skip: an edge record whose `source` is missing or empty but
whose (normalized) relationship is outside the configured
valid-relationship set still aborts the whole build with an assertion
failure. -/
theorem C9_relationship_check_first (d : Diagrammer) (newline : Bool)
    (e : Record) (he : EdgeRecOk e)
    (hsrc : getField e "source" = .vnull ∨ getField e "source" = .vstr "")
    (hrel : procAny (getField e "relationship") ∉ d.validRelations) :
    create_graph_from_yaml d ⟨some [], some [e]⟩ newline true =
      .error .assertionError := by
  obtain ⟨h1, h2⟩ := he
  have hs : proc_field (getField e "source") newline false = .ok (.vstr "") := by
    rcases hsrc with h | h <;> rw [h] <;> simp [proc_field, YVal.truthy]
  unfold create_graph_from_yaml
  simp only [List.foldlM, exceptPure, exceptBind_ok]
  unfold procEdge
  rw [hs, proc_field_strlike _ h2]
  simp only [proc_field_noflags, exceptBind_ok]
  rw [checkRelation_true_notmem d _ hrel]
  rfl

/-- C9 witness: an edge record with no fields at all (so `source` is
missing and its missing relationship normalizes to `""`, outside the
default set `[1, 2, 3, 4]`) aborts a validating build. -/
theorem C9_relationship_check_first_witness :
    EdgeRecOk ([] : Record) ∧
    (getField ([] : Record) "source" = .vnull ∨
      getField ([] : Record) "source" = .vstr "") ∧
    procAny (getField ([] : Record) "relationship") ∉
      defaultDiagrammer.validRelations ∧
    create_graph_from_yaml defaultDiagrammer ⟨some [], some [[]]⟩ true true =
      .error .assertionError :=
  ⟨by decide, Or.inl rfl, by decide,
   C9_relationship_check_first defaultDiagrammer true [] (by decide)
     (Or.inl rfl) (by decide)⟩

/-! ### Claim C3 -/

theorem procNode_badteam (d : Diagrammer) (nl : Bool) (g : Graph)
    (r : Record) (h : NodeRecOk r) (t : String)
    (hteam : getField r "team" = .vstr t) (ht : t ≠ "")
    (hbad : YVal.vstr t ∉ d.validTeams) :
    procNode d nl true g r = .error .assertionError := by
  obtain ⟨h1, h2, _⟩ := h
  have hpa : procAny (YVal.vstr t) = .vstr t := by
    simp [procAny, YVal.truthy, ht]
  unfold procNode
  rw [proc_field_strlike _ h1, proc_field_strlike _ h2]
  simp only [proc_field_noflags, exceptBind_ok, hteam, hpa]
  rw [if_pos (show (YVal.vstr t).truthy = true by simp [YVal.truthy, ht])]
  rw [checkTeam_true_notmem d _ hbad]
  rfl

theorem procNode_validate_shape (d : Diagrammer) (nl : Bool) (g : Graph)
    (r : Record) (h : NodeRecOk r) :
    (∃ g', procNode d nl true g r = .ok g') ∨
    procNode d nl true g r = .error .assertionError := by
  obtain ⟨h1, h2, h3⟩ := h
  unfold procNode
  rw [proc_field_strlike _ h1, proc_field_strlike _ h2]
  simp only [proc_field_noflags, exceptBind_ok]
  by_cases ht : (procAny (getField r "team")).truthy
  · rw [if_pos ht]
    by_cases hm : procAny (getField r "team") ∈ d.validTeams
    · rw [checkTeam_true_mem d _ hm]
      simp only [proc_field_strlike _ (procAny_strlike _ h3), exceptPure,
        exceptBind_ok]
      rcases checkStatus_shape d true (getField r "status") with hcs | hcs
      · rw [hcs]
        simp only [exceptPure, exceptBind_ok]
        by_cases hn : (YVal.vstr (procStr (getField r "id").str nl false)).truthy
        · rw [if_pos hn]
          exact Or.inl ⟨_, rfl⟩
        · rw [if_neg hn]
          exact Or.inl ⟨_, rfl⟩
      · rw [hcs]
        exact Or.inr rfl
    · rw [checkTeam_true_notmem d _ hm]
      exact Or.inr rfl
  · rw [if_neg ht]
    simp only [exceptPure, exceptBind_ok]
    rcases checkStatus_shape d true (getField r "status") with hcs | hcs
    · rw [hcs]
      simp only [exceptPure, exceptBind_ok]
      by_cases hn : (YVal.vstr (procStr (getField r "id").str nl false)).truthy
      · rw [if_pos hn]
        exact Or.inl ⟨_, rfl⟩
      · rw [if_neg hn]
        exact Or.inl ⟨_, rfl⟩
    · rw [hcs]
      exact Or.inr rfl

theorem foldlM_nodes_validate_err (d : Diagrammer) (nl : Bool)
    (l : List Record) :
    ∀ g : Graph, (∀ r ∈ l, NodeRecOk r) →
    ∀ rec ∈ l, ∀ t : String, getField rec "team" = .vstr t → t ≠ "" →
    YVal.vstr t ∉ d.validTeams →
    l.foldlM (procNode d nl true) g = .error .assertionError := by
  induction l with
  | nil =>
    intro g _ rec hrec
    exact absurd hrec (List.not_mem_nil rec)
  | cons r rest ih =>
    intro g h rec hrec t hteam ht hbad
    rcases List.mem_cons.mp hrec with heq | hmem
    · subst heq
      simp only [List.foldlM,
        procNode_badteam d nl g rec (h rec (by simp)) t hteam ht hbad,
        exceptBind_err]
    · rcases procNode_validate_shape d nl g r (h r (by simp)) with ⟨g', hg'⟩ | herr
      · simp only [List.foldlM, hg', exceptBind_ok]
        exact ih g' (fun r' hr' => h r' (by simp [hr'])) rec hmem t hteam ht hbad
      · simp only [List.foldlM, herr, exceptBind_err]

theorem create_nodes_err (d : Diagrammer) (nl v : Bool) (ns es : List Record)
    (e : PyErr) (h : ns.foldlM (procNode d nl v) Graph.empty = .error e) :
    create_graph_from_yaml d ⟨some ns, some es⟩ nl v = .error e := by
  unfold create_graph_from_yaml
  simp only [exceptPure, exceptBind_ok, h, exceptBind_err]

/-- C3: a document containing a node record whose `team` value is a
non-empty string outside the configured valid-team set makes the
validating build abort with an assertion failure (no partial graph),
while the same call with `validate=False` succeeds; the record's stored
`team` attribute is then the raw value modified only by normalization:
split on the first space (when `newline` is set) and upper-cased. -/
theorem C3_team_validation (d : Diagrammer) (newline : Bool)
    (ns es : List Record) (rec : Record) (t : String)
    (hns : ∀ r ∈ ns, NodeRecOk r) (hes : ∀ e ∈ es, EdgeRecOk e)
    (hrec : rec ∈ ns) (hteam : getField rec "team" = .vstr t) (ht : t ≠ "")
    (hbad : YVal.vstr t ∉ d.validTeams) :
    create_graph_from_yaml d ⟨some ns, some es⟩ newline true =
      .error .assertionError ∧
    create_graph_from_yaml d ⟨some ns, some es⟩ newline false =
      .ok (es.foldl (edgeStep newline) (ns.foldl (nodeStep newline) Graph.empty)) ∧
    (∀ g : Graph, procNode d newline false g rec = .ok (nodeStep newline g rec)) ∧
    (nodeAttrsOf rec newline).team =
      .vstr (pyUpper (if newline then pyNewline t else t)) := by
  refine ⟨?_, create_ok d newline ns es hns hes, ?_, ?_⟩
  · exact create_nodes_err d newline true ns es .assertionError
      (foldlM_nodes_validate_err d newline ns Graph.empty hns rec hrec t
        hteam ht hbad)
  · intro g
    exact procNode_ok d newline g rec (hns rec hrec)
  · simp [nodeAttrsOf, hteam, procAny, YVal.truthy, ht, YVal.str, procStr]

/-- Concrete record used to instantiate `C3_team_validation`. -/
def C3rec : Record := [("id", .vstr "A"), ("team", .vstr "Team X")]

/-- C3 witness: a single node record with team `"Team X"` (outside the
default allow-list) makes the validating build abort. -/
theorem C3_team_validation_witness :
    ((∀ r ∈ [C3rec], NodeRecOk r) ∧ C3rec ∈ [C3rec] ∧
      getField C3rec "team" = .vstr "Team X" ∧ "Team X" ≠ "" ∧
      YVal.vstr "Team X" ∉ defaultDiagrammer.validTeams) ∧
    create_graph_from_yaml defaultDiagrammer ⟨some [C3rec], some []⟩ true true =
      .error .assertionError :=
  ⟨⟨by decide, by decide, by decide, by decide, by decide⟩,
   (C3_team_validation defaultDiagrammer true [C3rec] [] C3rec "Team X"
      (by decide) (by decide) (by decide) (by decide) (by decide)
      (by decide)).1⟩

/-! ### Claim C10 -/

theorem bind_ok_iff {α β : Type} {x : Except PyErr α} {f : α → Except PyErr β}
    {b : β} : (x >>= f) = .ok b ↔ ∃ a, x = .ok a ∧ f a = .ok b := by
  cases x with
  | error e => simp [exceptBind_err]
  | ok a => simp [exceptBind_ok]

theorem mem_names_setNode {ns : List (YVal × NodeAttrs)} {x : YVal}
    (k : YVal) (a : NodeAttrs) (hx : x ∈ ns.map Prod.fst) :
    x ∈ (setNode ns k a).map Prod.fst := by
  induction ns with
  | nil => simp at hx
  | cons p rest ih =>
    obtain ⟨k', a'⟩ := p
    simp only [setNode]
    split
    · rename_i hk
      simp only [List.map_cons, List.mem_cons] at hx ⊢
      rcases hx with rfl | hx
      · exact Or.inl hk
      · exact Or.inr hx
    · simp only [List.map_cons, List.mem_cons] at hx ⊢
      rcases hx with rfl | hx
      · exact Or.inl rfl
      · exact Or.inr (ih hx)

theorem mem_names_setNode_self (ns : List (YVal × NodeAttrs)) (k : YVal)
    (a : NodeAttrs) : k ∈ (setNode ns k a).map Prod.fst := by
  induction ns with
  | nil => simp [setNode]
  | cons p rest ih =>
    obtain ⟨k', a'⟩ := p
    simp only [setNode]
    split
    · simp
    · simp only [List.map_cons, List.mem_cons]
      exact Or.inr ih

theorem mem_names_ensureNode {ns : List (YVal × NodeAttrs)} {x : YVal}
    (k : YVal) (hx : x ∈ ns.map Prod.fst) :
    x ∈ (ensureNode ns k).map Prod.fst := by
  unfold ensureNode
  split
  · exact hx
  · rw [List.map_append]
    exact List.mem_append_left _ hx

theorem mem_names_ensureNode_self (ns : List (YVal × NodeAttrs)) (k : YVal) :
    k ∈ (ensureNode ns k).map Prod.fst := by
  unfold ensureNode
  split
  · rename_i h
    obtain ⟨p, hp, hpk⟩ := List.any_eq_true.mp h
    exact List.mem_map.mpr ⟨p, hp, eq_of_beq hpk⟩
  · rw [List.map_append]
    apply List.mem_append_right
    simp

theorem setEdge_mem {es : List (YVal × YVal × EdgeAttrs)} {u v : YVal}
    {a : EdgeAttrs} {e : YVal × YVal × EdgeAttrs}
    (he : e ∈ setEdge es u v a) : e = (u, v, a) ∨ e ∈ es := by
  induction es with
  | nil =>
    simp [setEdge] at he
    exact Or.inl he
  | cons p rest ih =>
    obtain ⟨u', v', a'⟩ := p
    simp only [setEdge] at he
    split at he
    · rcases List.mem_cons.mp he with heq | hmem
      · exact Or.inl heq
      · exact Or.inr (List.mem_cons_of_mem _ hmem)
    · rcases List.mem_cons.mp he with heq | hmem
      · exact Or.inr (heq ▸ List.mem_cons_self _ _)
      · rcases ih hmem with h' | h'
        · exact Or.inl h'
        · exact Or.inr (List.mem_cons_of_mem _ h')

theorem endpointsOk_add_node (g : Graph) (k : YVal) (a : NodeAttrs)
    (h : endpointsOk g) : endpointsOk (g.add_node k a) := by
  intro e he
  have h' := h e he
  exact ⟨mem_names_setNode k a h'.1, mem_names_setNode k a h'.2⟩

theorem endpointsOk_add_edge (g : Graph) (u v : YVal) (a : EdgeAttrs)
    (h : endpointsOk g) : endpointsOk (g.add_edge u v a) := by
  intro e he
  rcases setEdge_mem he with heq | hmem
  · subst heq
    exact ⟨mem_names_ensureNode v (mem_names_ensureNode_self g.nodes u),
      mem_names_ensureNode_self _ v⟩
  · have h' := h e hmem
    exact ⟨mem_names_ensureNode v (mem_names_ensureNode u h'.1),
      mem_names_ensureNode v (mem_names_ensureNode u h'.2)⟩

theorem procNode_result (d : Diagrammer) (nl val : Bool) (g : Graph)
    (r : Record) (g' : Graph) (h : procNode d nl val g r = .ok g') :
    g' = g ∨ ∃ k a, g' = g.add_node k a := by
  unfold procNode at h
  dsimp only [] at h
  rw [bind_ok_iff] at h; obtain ⟨name, _, h⟩ := h
  rw [bind_ok_iff] at h; obtain ⟨note, _, h⟩ := h
  rw [bind_ok_iff] at h; obtain ⟨team0, _, h⟩ := h
  rw [bind_ok_iff] at h; obtain ⟨job, _, h⟩ := h
  rw [bind_ok_iff] at h; obtain ⟨rank, _, h⟩ := h
  rw [bind_ok_iff] at h; obtain ⟨manager, _, h⟩ := h
  by_cases ht : team0.truthy
  · rw [if_pos ht] at h
    rw [bind_ok_iff] at h; obtain ⟨u0, _, h⟩ := h
    rw [bind_ok_iff] at h; obtain ⟨team, _, h⟩ := h
    rw [bind_ok_iff] at h; obtain ⟨u1, _, h⟩ := h
    by_cases hn : name.truthy
    · rw [if_pos hn] at h
      exact Or.inr ⟨name, _, (Except.ok.inj h).symm⟩
    · rw [if_neg hn] at h
      exact Or.inl (Except.ok.inj h).symm
  · rw [if_neg ht] at h
    rw [bind_ok_iff] at h; obtain ⟨team, _, h⟩ := h
    rw [bind_ok_iff] at h; obtain ⟨u1, _, h⟩ := h
    by_cases hn : name.truthy
    · rw [if_pos hn] at h
      exact Or.inr ⟨name, _, (Except.ok.inj h).symm⟩
    · rw [if_neg hn] at h
      exact Or.inl (Except.ok.inj h).symm

theorem procEdge_result (d : Diagrammer) (nl val : Bool) (g : Graph)
    (e : Record) (g' : Graph) (h : procEdge d nl val g e = .ok g') :
    g' = g ∨ ∃ u v a, g' = g.add_edge u v a := by
  unfold procEdge at h
  rw [bind_ok_iff] at h; obtain ⟨source, _, h⟩ := h
  rw [bind_ok_iff] at h; obtain ⟨target, _, h⟩ := h
  rw [bind_ok_iff] at h; obtain ⟨label, _, h⟩ := h
  rw [bind_ok_iff] at h; obtain ⟨relation, _, h⟩ := h
  rw [bind_ok_iff] at h; obtain ⟨u, _, h⟩ := h
  by_cases hs : source.truthy
  · rw [if_pos hs] at h
    exact Or.inr ⟨source, target, _, (Except.ok.inj h).symm⟩
  · rw [if_neg hs] at h
    exact Or.inl (Except.ok.inj h).symm

theorem foldlM_ok_invariant {α : Type} (f : Graph → α → Except PyErr Graph)
    (P : Graph → Prop)
    (hf : ∀ g a g', f g a = .ok g' → P g → P g') :
    ∀ (l : List α) (g g' : Graph), l.foldlM f g = .ok g' → P g → P g' := by
  intro l
  induction l with
  | nil =>
    intro g g' h hp
    exact (Except.ok.inj h) ▸ hp
  | cons a rest ih =>
    intro g g' h hp
    simp only [List.foldlM] at h
    rw [bind_ok_iff] at h
    obtain ⟨g1, h1, h2⟩ := h
    exact ih g1 g' h2 (hf g a g1 h1 hp)

theorem create_endpointsOk (d : Diagrammer) (doc : Doc) (nl val : Bool)
    (g : Graph) (h : create_graph_from_yaml d doc nl val = .ok g) :
    endpointsOk g := by
  obtain ⟨onodes, oedges⟩ := doc
  cases onodes with
  | none =>
    exact Except.noConfusion
      (show (Except.error (PyErr.keyError "nodes") : Except PyErr Graph) =
        .ok g from h)
  | some ns =>
    cases oedges with
    | none =>
      unfold create_graph_from_yaml at h
      simp only [exceptPure, exceptBind_ok] at h
      rw [bind_ok_iff] at h
      obtain ⟨g1, _, h⟩ := h
      exact Except.noConfusion
        (show (Except.error (PyErr.keyError "edges") : Except PyErr Graph) =
          .ok g from h)
    | some es =>
      unfold create_graph_from_yaml at h
      simp only [exceptPure, exceptBind_ok] at h
      rw [bind_ok_iff] at h
      obtain ⟨g1, h1, h⟩ := h
      rw [bind_ok_iff] at h
      obtain ⟨g2, h2, h⟩ := h
      have hg : g = g2 := (Except.ok.inj h).symm
      subst hg
      have hstep1 : ∀ g0 r g0', procNode d nl val g0 r = .ok g0' →
          endpointsOk g0 → endpointsOk g0' := by
        intro g0 r g0' hok hp
        rcases procNode_result d nl val g0 r g0' hok with heq | ⟨k, a, heq⟩
        · exact heq ▸ hp
        · exact heq ▸ endpointsOk_add_node g0 k a hp
      have hstep2 : ∀ g0 e g0', procEdge d nl val g0 e = .ok g0' →
          endpointsOk g0 → endpointsOk g0' := by
        intro g0 e g0' hok hp
        rcases procEdge_result d nl val g0 e g0' hok with heq | ⟨u, v, a, heq⟩
        · exact heq ▸ hp
        · exact heq ▸ endpointsOk_add_edge g0 u v a hp
      have hempty : endpointsOk Graph.empty := by
        intro e he
        simp [Graph.empty] at he
      exact foldlM_ok_invariant (procEdge d nl val) endpointsOk hstep2 es g1 g h2
        (foldlM_ok_invariant (procNode d nl val) endpointsOk hstep1 ns
          Graph.empty g1 h1 hempty)

/-- C10: in every graph returned by `create_graph_from_yaml`, both
endpoints of every edge are nodes of the graph; moreover, on the concrete
document with one declared node `"A"` and one edge record with source
`"A"` and no target, the missing target is auto-created as the
empty-string node with no attributes, raising the node count to 2 (beyond
the single declared node record). -/
theorem C10_edge_endpoints (d : Diagrammer) (doc : Doc)
    (newline validate : Bool) (g : Graph)
    (h : create_graph_from_yaml d doc newline validate = .ok g) :
    (∀ u v a, (u, v, a) ∈ g.edges → u ∈ g.nodeNames ∧ v ∈ g.nodeNames) ∧
    (create_graph_from_yaml defaultDiagrammer
        ⟨some [[("id", .vstr "A")]], some [[("source", .vstr "A")]]⟩
        true false).map
      (fun gex => (gex.nodes.length, lookupNode gex (.vstr ""))) =
      .ok (2, some emptyNodeAttrs) := by
  constructor
  · intro u v a hmem
    exact create_endpointsOk d doc newline validate g h (u, v, a) hmem
  · rfl

/-- C10 witness: instantiation at the concrete one-node, one-dangling-edge
document. -/
theorem C10_edge_endpoints_witness :
    (∀ u v a,
      (u, v, a) ∈
        (Graph.mk
          [(.vstr "A", ⟨.vstr "", .vstr "", .vnull, .vstr "", .vstr "", .vstr ""⟩),
           (.vstr "", emptyNodeAttrs)]
          [(.vstr "A", .vstr "", ⟨.vstr "", .vstr ""⟩)]).edges →
      u ∈ (Graph.mk
          [(.vstr "A", ⟨.vstr "", .vstr "", .vnull, .vstr "", .vstr "", .vstr ""⟩),
           (.vstr "", emptyNodeAttrs)]
          [(.vstr "A", .vstr "", ⟨.vstr "", .vstr ""⟩)]).nodeNames ∧
      v ∈ (Graph.mk
          [(.vstr "A", ⟨.vstr "", .vstr "", .vnull, .vstr "", .vstr "", .vstr ""⟩),
           (.vstr "", emptyNodeAttrs)]
          [(.vstr "A", .vstr "", ⟨.vstr "", .vstr ""⟩)]).nodeNames) ∧
    (create_graph_from_yaml defaultDiagrammer
        ⟨some [[("id", .vstr "A")]], some [[("source", .vstr "A")]]⟩
        true false).map
      (fun gex => (gex.nodes.length, lookupNode gex (.vstr ""))) =
      .ok (2, some emptyNodeAttrs) :=
  C10_edge_endpoints defaultDiagrammer
    ⟨some [[("id", .vstr "A")]], some [[("source", .vstr "A")]]⟩ true false
    (Graph.mk
      [(.vstr "A", ⟨.vstr "", .vstr "", .vnull, .vstr "", .vstr "", .vstr ""⟩),
       (.vstr "", emptyNodeAttrs)]
      [(.vstr "A", .vstr "", ⟨.vstr "", .vstr ""⟩)])
    (by rfl)

/-! ### Claim C8 -/

theorem nodeNames_def (g : Graph) : g.nodeNames = g.nodes.map Prod.fst := rfl

theorem find?_setNode_self (ns : List (YVal × NodeAttrs)) (k : YVal)
    (a : NodeAttrs) :
    (setNode ns k a).find? (fun p => p.fst == k) = some (k, a) := by
  induction ns with
  | nil => simp [setNode]
  | cons p rest ih =>
    obtain ⟨k', a'⟩ := p
    simp only [setNode]
    split
    · simp
    · rename_i hk
      rw [List.find?_cons_of_neg _ (by simp [hk])]
      exact ih

theorem find?_setNode_other (ns : List (YVal × NodeAttrs)) (k : YVal)
    (a : NodeAttrs) (k' : YVal) (hk : k ≠ k') :
    (setNode ns k a).find? (fun p => p.fst == k') =
      ns.find? (fun p => p.fst == k') := by
  induction ns with
  | nil => simp [setNode, hk]
  | cons p rest ih =>
    obtain ⟨k0, a0⟩ := p
    simp only [setNode]
    split
    · rename_i h0
      subst h0
      rw [List.find?_cons_of_neg _ (by simp [hk]),
        List.find?_cons_of_neg _ (by simp [hk])]
    · by_cases h0 : k0 = k'
      · subst h0
        rw [List.find?_cons_of_pos _ (by simp),
          List.find?_cons_of_pos _ (by simp)]
      · rw [List.find?_cons_of_neg _ (by simp [h0]),
          List.find?_cons_of_neg _ (by simp [h0])]
        exact ih

theorem names_setNode (ns : List (YVal × NodeAttrs)) (k : YVal)
    (a : NodeAttrs) :
    (setNode ns k a).map Prod.fst =
      if k ∈ ns.map Prod.fst then ns.map Prod.fst
      else ns.map Prod.fst ++ [k] := by
  induction ns with
  | nil => simp [setNode]
  | cons p rest ih =>
    obtain ⟨k', a'⟩ := p
    simp only [setNode]
    split
    · rename_i hk
      subst hk
      simp
    · rename_i hk
      simp only [List.map_cons, ih]
      by_cases hm : k ∈ rest.map Prod.fst
      · rw [if_pos hm, if_pos (by simp [hm])]
      · rw [if_neg hm,
          if_neg (by
            simp only [List.mem_cons, not_or]
            exact ⟨fun he => hk he.symm, hm⟩)]
        simp

theorem find?_append_left {α : Type} (p : α → Bool) (l1 l2 : List α)
    (x : α) (h : l1.find? p = some x) : (l1 ++ l2).find? p = some x := by
  induction l1 with
  | nil => simp [List.find?] at h
  | cons y rest ih =>
    by_cases hy : p y
    · rw [List.find?_cons_of_pos _ hy] at h
      rw [List.cons_append, List.find?_cons_of_pos _ hy]
      exact h
    · rw [List.find?_cons_of_neg _ hy] at h
      rw [List.cons_append, List.find?_cons_of_neg _ hy]
      exact ih h

theorem find?_isSome_of_mem (ns : List (YVal × NodeAttrs)) (k : YVal)
    (h : k ∈ ns.map Prod.fst) :
    ∃ x, ns.find? (fun p => p.fst == k) = some x := by
  induction ns with
  | nil => simp at h
  | cons p rest ih =>
    by_cases hp : p.fst = k
    · exact ⟨p, List.find?_cons_of_pos _ (by simp [hp])⟩
    · simp only [List.map_cons, List.mem_cons] at h
      rcases h with h | h
      · exact absurd h.symm hp
      · obtain ⟨x, hx⟩ := ih h
        exact ⟨x, by rw [List.find?_cons_of_neg _ (by simp [hp])]; exact hx⟩

theorem ensureNode_preserve (ns : List (YVal × NodeAttrs)) (u k : YVal)
    (hk : k ∈ ns.map Prod.fst) :
    (ensureNode ns u).find? (fun p => p.fst == k) =
      ns.find? (fun p => p.fst == k) ∧
    ((ensureNode ns u).map Prod.fst).count k = (ns.map Prod.fst).count k ∧
    k ∈ (ensureNode ns u).map Prod.fst := by
  unfold ensureNode
  split
  · exact ⟨rfl, rfl, hk⟩
  · rename_i hany
    have huk : u ≠ k := by
      intro he
      subst he
      obtain ⟨p, hp, hpe⟩ := List.mem_map.mp hk
      exact hany (List.any_eq_true.mpr ⟨p, hp, by simp [hpe]⟩)
    refine ⟨?_, ?_, ?_⟩
    · obtain ⟨x, hx⟩ := find?_isSome_of_mem ns k hk
      rw [find?_append_left _ _ _ _ hx, hx]
    · rw [List.map_append, List.count_append]
      have hku : k ≠ u := Ne.symm huk
      have : ([(u, emptyNodeAttrs)].map Prod.fst).count k = 0 := by
        simp [List.count_cons, hku]
      rw [this]
      omega
    · rw [List.map_append]
      exact List.mem_append_left _ hk

theorem lookupNode_add_node_self (g : Graph) (k : YVal) (a : NodeAttrs) :
    lookupNode (g.add_node k a) k = some a := by
  unfold lookupNode Graph.add_node
  rw [find?_setNode_self]
  rfl

theorem count_add_node_self (g : Graph) (k : YVal) (a : NodeAttrs)
    (h : g.nodeNames.count k ≤ 1) :
    (g.add_node k a).nodeNames.count k = 1 := by
  unfold Graph.nodeNames Graph.add_node
  show ((setNode g.nodes k a).map Prod.fst).count k = 1
  rw [names_setNode]
  split
  · rename_i hm
    have hpos : 0 < (g.nodes.map Prod.fst).count k :=
      List.count_pos_iff.mpr hm
    have h' : (g.nodes.map Prod.fst).count k ≤ 1 := h
    omega
  · rename_i hm
    rw [List.count_append, List.count_eq_zero_of_not_mem hm]
    simp

theorem count_nodeStep_le (nl : Bool) (g : Graph) (r : Record) (k : YVal)
    (h : g.nodeNames.count k ≤ 1) :
    (nodeStep nl g r).nodeNames.count k ≤ 1 := by
  have hmap : (g.nodes.map Prod.fst).count k ≤ 1 := h
  unfold nodeStep
  split
  · show ((setNode g.nodes (nodeKeyOf r nl) (nodeAttrsOf r nl)).map
      Prod.fst).count k ≤ 1
    rw [names_setNode]
    split
    · exact h
    · rename_i hm
      rw [List.count_append]
      by_cases hkk : nodeKeyOf r nl = k
      · subst hkk
        rw [List.count_eq_zero_of_not_mem hm]
        simp
      · have : [nodeKeyOf r nl].count k = 0 :=
          List.count_eq_zero_of_not_mem (by simp [Ne.symm hkk])
        rw [this]
        omega
  · exact hmap

theorem foldl_nodeStep_count_le (nl : Bool) (l : List Record) :
    ∀ g k, g.nodeNames.count k ≤ 1 →
    ((l.foldl (nodeStep nl) g)).nodeNames.count k ≤ 1 := by
  induction l with
  | nil => intro g k h; exact h
  | cons r rest ih =>
    intro g k h
    simp only [List.foldl_cons]
    exact ih (nodeStep nl g r) k (count_nodeStep_le nl g r k h)

theorem foldl_nodeStep_post (nl : Bool) (l : List Record) :
    ∀ g k, (∀ r ∈ l, nodeKeyOf r nl ≠ k) →
    lookupNode (l.foldl (nodeStep nl) g) k = lookupNode g k ∧
    ((l.foldl (nodeStep nl) g)).nodeNames.count k = g.nodeNames.count k := by
  induction l with
  | nil => intro g k _; exact ⟨rfl, rfl⟩
  | cons r rest ih =>
    intro g k h
    have hr : nodeKeyOf r nl ≠ k := h r (by simp)
    have hstep : lookupNode (nodeStep nl g r) k = lookupNode g k ∧
        (nodeStep nl g r).nodeNames.count k = g.nodeNames.count k := by
      unfold nodeStep
      split
      · constructor
        · unfold lookupNode Graph.add_node
          rw [find?_setNode_other _ _ _ _ hr]
        · show ((setNode g.nodes (nodeKeyOf r nl)
            (nodeAttrsOf r nl)).map Prod.fst).count k = _
          rw [names_setNode]
          split
          · rfl
          · rw [List.count_append]
            have hz : List.count k [nodeKeyOf r nl] = 0 :=
              List.count_eq_zero_of_not_mem (by simp [Ne.symm hr])
            rw [hz, Nat.add_zero]
            rfl
      · exact ⟨rfl, rfl⟩
    simp only [List.foldl_cons]
    obtain ⟨h1, h2⟩ := ih (nodeStep nl g r) k (fun r' hr' => h r' (by simp [hr']))
    exact ⟨h1.trans hstep.1, h2.trans hstep.2⟩

theorem edgeStep_preserve (nl : Bool) (g : Graph) (e : Record) (k : YVal)
    (hk : k ∈ g.nodeNames) :
    lookupNode (edgeStep nl g e) k = lookupNode g k ∧
    (edgeStep nl g e).nodeNames.count k = g.nodeNames.count k ∧
    k ∈ (edgeStep nl g e).nodeNames := by
  unfold edgeStep
  split
  · exact ⟨rfl, rfl, hk⟩
  · obtain ⟨f1, c1, m1⟩ := ensureNode_preserve g.nodes
      (YVal.vstr (edgeSrcOf e nl)) k hk
    obtain ⟨f2, c2, m2⟩ := ensureNode_preserve
      (ensureNode g.nodes (YVal.vstr (edgeSrcOf e nl)))
      (YVal.vstr (edgeTgtOf e nl)) k m1
    refine ⟨?_, ?_, m2⟩
    · unfold lookupNode Graph.add_edge
      show ((ensureNode (ensureNode g.nodes _) _).find? _).map Prod.snd = _
      rw [f2, f1]
    · show ((ensureNode (ensureNode g.nodes _) _).map Prod.fst).count k = _
      rw [c2, c1]
      rfl

theorem foldl_edgeStep_preserve (nl : Bool) (l : List Record) :
    ∀ g k, k ∈ g.nodeNames →
    lookupNode (l.foldl (edgeStep nl) g) k = lookupNode g k ∧
    ((l.foldl (edgeStep nl) g)).nodeNames.count k = g.nodeNames.count k := by
  induction l with
  | nil => intro g k _; exact ⟨rfl, rfl⟩
  | cons e rest ih =>
    intro g k hk
    obtain ⟨h1, h2, h3⟩ := edgeStep_preserve nl g e k hk
    simp only [List.foldl_cons]
    obtain ⟨i1, i2⟩ := ih (edgeStep nl g e) k h3
    exact ⟨i1.trans h1, i2.trans h2⟩

/-- C8: last write wins for node records.  In a document whose node list is
`pre ++ [r1] ++ mid ++ [r2] ++ post`, where `r1` and `r2` normalize to the
same truthy graph key and no record after `r2` uses that key, the built
graph (validation off) contains exactly one node under that key and its
attributes (rank, jobtitle, status, manager, note, team) are exactly those
computed from the later record `r2` — fully replaced, not merged. -/
theorem C8_last_write_wins (d : Diagrammer) (newline : Bool)
    (pre mid post es : List Record) (r1 r2 : Record) (k : YVal)
    (hall : ∀ r ∈ pre ++ [r1] ++ mid ++ [r2] ++ post, NodeRecOk r)
    (hes : ∀ e ∈ es, EdgeRecOk e)
    (hk1 : nodeKeyOf r1 newline = k) (hk2 : nodeKeyOf r2 newline = k)
    (hkt : k.truthy = true)
    (hpost : ∀ r ∈ post, nodeKeyOf r newline ≠ k) :
    ∃ g, create_graph_from_yaml d
        ⟨some (pre ++ [r1] ++ mid ++ [r2] ++ post), some es⟩ newline false =
      .ok g ∧
      lookupNode g k = some (nodeAttrsOf r2 newline) ∧
      g.nodeNames.count k = 1 := by
  have hcreate := create_ok d newline (pre ++ [r1] ++ mid ++ [r2] ++ post)
    es hall hes
  refine ⟨_, hcreate, ?_, ?_⟩ <;>
  · have hfold : (pre ++ [r1] ++ mid ++ [r2] ++ post).foldl
        (nodeStep newline) Graph.empty =
        post.foldl (nodeStep newline)
          (nodeStep newline
            ((pre ++ [r1] ++ mid).foldl (nodeStep newline) Graph.empty) r2) := by
      rw [List.foldl_append, List.foldl_append]
      rfl
    have hstep2 : nodeStep newline
        ((pre ++ [r1] ++ mid).foldl (nodeStep newline) Graph.empty) r2 =
        ((pre ++ [r1] ++ mid).foldl (nodeStep newline)
          Graph.empty).add_node k (nodeAttrsOf r2 newline) := by
      unfold nodeStep
      rw [hk2, if_pos hkt]
    have hle : ((pre ++ [r1] ++ mid).foldl (nodeStep newline)
        Graph.empty).nodeNames.count k ≤ 1 := by
      apply foldl_nodeStep_count_le
      simp [Graph.empty, Graph.nodeNames]
    have hlook2 : lookupNode (nodeStep newline
        ((pre ++ [r1] ++ mid).foldl (nodeStep newline) Graph.empty) r2) k =
        some (nodeAttrsOf r2 newline) := by
      rw [hstep2]
      exact lookupNode_add_node_self _ k _
    have hcount2 : (nodeStep newline
        ((pre ++ [r1] ++ mid).foldl (nodeStep newline) Graph.empty)
        r2).nodeNames.count k = 1 := by
      rw [hstep2]
      exact count_add_node_self _ k _ hle
    obtain ⟨hlook3, hcount3⟩ := foldl_nodeStep_post newline post
      (nodeStep newline
        ((pre ++ [r1] ++ mid).foldl (nodeStep newline) Graph.empty) r2)
      k hpost
    have hlookN : lookupNode ((pre ++ [r1] ++ mid ++ [r2] ++ post).foldl
        (nodeStep newline) Graph.empty) k = some (nodeAttrsOf r2 newline) := by
      rw [hfold, hlook3, hlook2]
    have hcountN : ((pre ++ [r1] ++ mid ++ [r2] ++ post).foldl
        (nodeStep newline) Graph.empty).nodeNames.count k = 1 := by
      rw [hfold, hcount3, hcount2]
    have hmemN : k ∈ ((pre ++ [r1] ++ mid ++ [r2] ++ post).foldl
        (nodeStep newline) Graph.empty).nodeNames :=
      List.count_pos_iff.mp (by omega)
    obtain ⟨hlookE, hcountE⟩ := foldl_edgeStep_preserve newline es
      ((pre ++ [r1] ++ mid ++ [r2] ++ post).foldl (nodeStep newline)
        Graph.empty) k hmemN
    first
    | rw [hlookE, hlookN]
    | rw [hcountE, hcountN]

/-- Records used to instantiate `C8_last_write_wins`. -/
def C8rec1 : Record := [("id", .vstr "A"), ("rank", .vstr "1")]

/-- Records used to instantiate `C8_last_write_wins`. -/
def C8rec2 : Record := [("id", .vstr "A"), ("rank", .vstr "2")]

/-- C8 witness: two records with id `"A"`; the stored attributes are those
of the second record, and the key `"A"` appears exactly once. -/
theorem C8_last_write_wins_witness :
    ((∀ r ∈ ([] : List Record) ++ [C8rec1] ++ [] ++ [C8rec2] ++ [],
        NodeRecOk r) ∧
      nodeKeyOf C8rec1 true = .vstr "A" ∧ nodeKeyOf C8rec2 true = .vstr "A" ∧
      (YVal.vstr "A").truthy = true) ∧
    ∃ g, create_graph_from_yaml defaultDiagrammer
        ⟨some (([] : List Record) ++ [C8rec1] ++ [] ++ [C8rec2] ++ []),
          some []⟩ true false = .ok g ∧
      lookupNode g (.vstr "A") = some (nodeAttrsOf C8rec2 true) ∧
      g.nodeNames.count (.vstr "A") = 1 :=
  ⟨⟨by decide, by decide, by decide, by decide⟩,
   C8_last_write_wins defaultDiagrammer true [] [] [] [] C8rec1 C8rec2 (.vstr "A")
     (by decide) (by decide) (by decide) (by decide) (by decide)
     (by decide)⟩

/-! ### Claim C1 -/

theorem setNode_append (ns : List (YVal × NodeAttrs)) (k : YVal)
    (a : NodeAttrs) (h : k ∉ ns.map Prod.fst) :
    setNode ns k a = ns ++ [(k, a)] := by
  induction ns with
  | nil => rfl
  | cons p rest ih =>
    obtain ⟨k', a'⟩ := p
    simp only [List.map_cons, List.mem_cons, not_or] at h
    simp only [setNode]
    rw [if_neg (fun he => h.1 he.symm)]
    rw [ih h.2]
    rfl

theorem ensureNode_of_mem (ns : List (YVal × NodeAttrs)) (k : YVal)
    (h : k ∈ ns.map Prod.fst) : ensureNode ns k = ns := by
  unfold ensureNode
  rw [if_pos]
  obtain ⟨p, hp, hpe⟩ := List.mem_map.mp h
  exact List.any_eq_true.mpr ⟨p, hp, by simp [hpe]⟩

theorem setEdge_append (es : List (YVal × YVal × EdgeAttrs)) (u v : YVal)
    (a : EdgeAttrs)
    (h : ∀ e ∈ es, ¬(e.1 = u ∧ e.2.1 = v)) :
    setEdge es u v a = es ++ [(u, v, a)] := by
  induction es with
  | nil => rfl
  | cons p rest ih =>
    obtain ⟨u', v', a'⟩ := p
    simp only [setEdge]
    rw [if_neg (h (u', v', a') (by simp))]
    rw [ih (fun e he => h e (by simp [he]))]
    rfl

theorem foldl_nodeStep_fresh (nl : Bool) (l : List Record) :
    ∀ g : Graph, (∀ r ∈ l, (nodeKeyOf r nl).truthy = true) →
    (∀ r ∈ l, nodeKeyOf r nl ∉ g.nodes.map Prod.fst) →
    (l.map (fun r => nodeKeyOf r nl)).Nodup →
    (l.foldl (nodeStep nl) g).nodes =
      g.nodes ++ l.map (fun r => (nodeKeyOf r nl, nodeAttrsOf r nl)) ∧
    (l.foldl (nodeStep nl) g).edges = g.edges := by
  induction l with
  | nil => intro g _ _ _; simp
  | cons r rest ih =>
    intro g htr hfresh hnodup
    have hstep : nodeStep nl g r =
        ⟨g.nodes ++ [(nodeKeyOf r nl, nodeAttrsOf r nl)], g.edges⟩ := by
      unfold nodeStep
      rw [if_pos (htr r (by simp))]
      unfold Graph.add_node
      rw [setNode_append _ _ _ (hfresh r (by simp))]
    simp only [List.map_cons, List.nodup_cons] at hnodup
    have hfresh' : ∀ r' ∈ rest,
        nodeKeyOf r' nl ∉
          (g.nodes ++ [(nodeKeyOf r nl, nodeAttrsOf r nl)]).map Prod.fst := by
      intro r' hr'
      rw [List.map_append, List.mem_append]
      rintro (hmem | hmem)
      · exact hfresh r' (by simp [hr']) hmem
      · simp only [List.map_cons, List.map_nil, List.mem_singleton] at hmem
        exact hnodup.1 (List.mem_map.mpr ⟨r', hr', hmem⟩)
    obtain ⟨ih1, ih2⟩ := ih ⟨g.nodes ++ [(nodeKeyOf r nl, nodeAttrsOf r nl)],
        g.edges⟩
      (fun r' hr' => htr r' (by simp [hr']))
      hfresh' hnodup.2
    simp only [List.foldl_cons, hstep]
    constructor
    · rw [ih1]
      simp [List.append_assoc]
    · exact ih2

theorem foldl_edgeStep_fresh (nl : Bool) (l : List Record) :
    ∀ g : Graph, (∀ e ∈ l, edgeSrcOf e nl ≠ "") →
    (∀ e ∈ l, YVal.vstr (edgeSrcOf e nl) ∈ g.nodes.map Prod.fst ∧
              YVal.vstr (edgeTgtOf e nl) ∈ g.nodes.map Prod.fst) →
    (∀ e ∈ l, ∀ e' ∈ g.edges,
      ¬(e'.1 = YVal.vstr (edgeSrcOf e nl) ∧
        e'.2.1 = YVal.vstr (edgeTgtOf e nl))) →
    (l.map (fun e => (edgeSrcOf e nl, edgeTgtOf e nl))).Nodup →
    (l.foldl (edgeStep nl) g).nodes = g.nodes ∧
    (l.foldl (edgeStep nl) g).edges =
      g.edges ++ l.map (fun e =>
        (YVal.vstr (edgeSrcOf e nl), YVal.vstr (edgeTgtOf e nl),
          edgeAttrsOf e)) := by
  induction l with
  | nil => intro g _ _ _ _; simp
  | cons e rest ih =>
    intro g hsrc hend hfresh hnodup
    have hstep : edgeStep nl g e =
        ⟨g.nodes, g.edges ++ [(YVal.vstr (edgeSrcOf e nl),
          YVal.vstr (edgeTgtOf e nl), edgeAttrsOf e)]⟩ := by
      unfold edgeStep
      rw [if_neg (by simp [hsrc e (by simp)])]
      unfold Graph.add_edge
      rw [ensureNode_of_mem _ _ ((hend e (by simp)).1),
        ensureNode_of_mem _ _ ((hend e (by simp)).2),
        setEdge_append _ _ _ _ (hfresh e (by simp))]
    simp only [List.map_cons, List.nodup_cons] at hnodup
    have hfresh' : ∀ e1 ∈ rest, ∀ e' ∈ (g.edges ++
        [(YVal.vstr (edgeSrcOf e nl), YVal.vstr (edgeTgtOf e nl),
          edgeAttrsOf e)]),
        ¬(e'.1 = YVal.vstr (edgeSrcOf e1 nl) ∧
          e'.2.1 = YVal.vstr (edgeTgtOf e1 nl)) := by
      intro e1 he1 e' he'
      rw [List.mem_append] at he'
      rcases he' with hmem | hmem
      · exact hfresh e1 (by simp [he1]) e' hmem
      · simp only [List.mem_singleton] at hmem
        subst hmem
        rintro ⟨hu, hv⟩
        simp only [YVal.vstr.injEq] at hu hv
        exact hnodup.1 (List.mem_map.mpr
          ⟨e1, he1, by rw [← hu, ← hv]⟩)
    obtain ⟨ih1, ih2⟩ := ih ⟨g.nodes, g.edges ++
        [(YVal.vstr (edgeSrcOf e nl), YVal.vstr (edgeTgtOf e nl),
          edgeAttrsOf e)]⟩
      (fun e1 he1 => hsrc e1 (by simp [he1]))
      (fun e1 he1 => hend e1 (by simp [he1]))
      hfresh' hnodup.2
    simp only [List.foldl_cons, hstep]
    constructor
    · exact ih1
    · rw [ih2]
      simp [List.append_assoc]

/-- C1 (counterexample): a document with one node record of non-empty
normalized id (`N = 1`) and one edge record of non-empty normalized source
(`M = 1`) whose source `"B"` and missing target are not declared nodes
yields a graph with 3 nodes (the declared `"A"`, the auto-created `"B"`,
and the auto-created empty-string target), not exactly `N = 1` nodes as
the claim states. -/
theorem C1_counterexample :
    (∀ r ∈ [[("id", YVal.vstr "A")]], (nodeKeyOf r true).truthy = true) ∧
    (∀ e ∈ [[("source", YVal.vstr "B")]], edgeSrcOf e true ≠ "") ∧
    (create_graph_from_yaml defaultDiagrammer
        ⟨some [[("id", .vstr "A")]], some [[("source", .vstr "B")]]⟩
        true false).map (fun g => (g.nodes.length, g.edges.length)) =
      .ok (3, 1) ∧
    (3 : Nat) ≠ 1 :=
  ⟨by decide, by decide, rfl, by decide⟩

/-- C1 (amended): with `validate=False`, for a document whose node records
all have non-empty normalized ids that are pairwise distinct, and whose
edge records all have non-empty normalized sources, pairwise distinct
normalized (source, target) pairs, and endpoints that all occur among the
declared node ids, the graph has exactly N nodes and M edges; and the
degenerate document `nodes: [{}, {}], edges: [{}]` yields a graph with 0
nodes and 0 edges. -/
theorem C1_amended_counts (d : Diagrammer) (newline : Bool)
    (ns es : List Record)
    (hn : ∀ r ∈ ns, NodeRecOk r) (he : ∀ e ∈ es, EdgeRecOk e)
    (hid : ∀ r ∈ ns, (nodeKeyOf r newline).truthy = true)
    (hdist : (ns.map (fun r => nodeKeyOf r newline)).Nodup)
    (hsrc : ∀ e ∈ es, edgeSrcOf e newline ≠ "")
    (hpair : (es.map (fun e =>
      (edgeSrcOf e newline, edgeTgtOf e newline))).Nodup)
    (hend : ∀ e ∈ es,
      YVal.vstr (edgeSrcOf e newline) ∈
        ns.map (fun r => nodeKeyOf r newline) ∧
      YVal.vstr (edgeTgtOf e newline) ∈
        ns.map (fun r => nodeKeyOf r newline)) :
    (∃ g, create_graph_from_yaml d ⟨some ns, some es⟩ newline false = .ok g ∧
      g.nodes.length = ns.length ∧ g.edges.length = es.length) ∧
    create_graph_from_yaml d ⟨some [[], []], some [[]]⟩ newline false =
      .ok Graph.empty := by
  constructor
  · refine ⟨_, create_ok d newline ns es hn he, ?_, ?_⟩ <;>
    · obtain ⟨hn1, hn2⟩ := foldl_nodeStep_fresh newline ns Graph.empty hid
        (by intro r _; simp [Graph.empty]) hdist
      have hnames : (ns.foldl (nodeStep newline)
          Graph.empty).nodes.map Prod.fst =
          ns.map (fun r => nodeKeyOf r newline) := by
        rw [hn1]
        simp [Graph.empty, List.map_map, Function.comp]
      obtain ⟨he1, he2⟩ := foldl_edgeStep_fresh newline es
        (ns.foldl (nodeStep newline) Graph.empty)
        hsrc
        (by
          intro e hee
          rw [hnames]
          exact hend e hee)
        (by
          intro e _ e' he'
          rw [hn2] at he'
          simp [Graph.empty] at he')
        hpair
      first
      | (rw [he1, hn1]; simp [Graph.empty])
      | (rw [he2, hn2]; simp [Graph.empty])
  · cases newline <;> rfl

/-- Node records used to instantiate `C1_amended_counts`. -/
def C1recs : List Record := [[("id", .vstr "A")], [("id", .vstr "B")]]

/-- Edge records used to instantiate `C1_amended_counts`. -/
def C1edges : List Record := [[("source", .vstr "A"), ("target", .vstr "B")]]

/-- C1 witness: two declared nodes and one edge between them yield exactly
2 nodes and 1 edge. -/
theorem C1_amended_counts_witness :
    ((∀ r ∈ C1recs, NodeRecOk r) ∧ (∀ e ∈ C1edges, EdgeRecOk e) ∧
      (∀ r ∈ C1recs, (nodeKeyOf r true).truthy = true) ∧
      (C1recs.map (fun r => nodeKeyOf r true)).Nodup ∧
      (∀ e ∈ C1edges, edgeSrcOf e true ≠ "") ∧
      (C1edges.map (fun e => (edgeSrcOf e true, edgeTgtOf e true))).Nodup ∧
      (∀ e ∈ C1edges,
        YVal.vstr (edgeSrcOf e true) ∈ C1recs.map (fun r => nodeKeyOf r true) ∧
        YVal.vstr (edgeTgtOf e true) ∈
          C1recs.map (fun r => nodeKeyOf r true))) ∧
    ((∃ g, create_graph_from_yaml defaultDiagrammer
        ⟨some C1recs, some C1edges⟩ true false = .ok g ∧
      g.nodes.length = C1recs.length ∧ g.edges.length = C1edges.length) ∧
    create_graph_from_yaml defaultDiagrammer ⟨some [[], []], some [[]]⟩
      true false = .ok Graph.empty) :=
  ⟨⟨by decide, by decide, by decide, by decide, by decide, by decide,
    by decide⟩,
   C1_amended_counts defaultDiagrammer true C1recs C1edges (by decide)
     (by decide) (by decide) (by decide) (by decide) (by decide) (by decide)⟩
